import Mathlib

/-!
Verification of the vehicle-position simulation engine of the `dx-map`
repository, shallowly embedded in Lean 4.

Sources embedded here:
* `src/src/app/simulation/model.rs` — `VehicleType`, `Vehicle`, `Route`,
  `initialize_vehicles` (embedded below as `build_vehicles`).
* `src/src/app/simulation/mod.rs` / `src/src/app/simulation.rs` —
  `update_vehicle_positions`, the animation-frame callback of
  `start_animation_loop` / `request_animation_frame`, and
  `toggle_simulation` together with the inline state store of
  `simulation.rs` (`SimulationState`).

Modelling conventions:
* Rust `f64` fields are modelled as `ℚ`; all the arithmetic performed by the
  engine (`+`, `-`, `*` with constants, comparison against `1.0`) is exact on
  the values the claims are about.
* Rust `usize`/`i32`/`i8` values are modelled as `Nat`/`Int` with the casts
  (`as i32`, `as usize`) and release-mode wrapping subtraction made explicit.
* Fallible operations (slice indexing, which panics when out of bounds) are
  modelled in the `Option` monad: `none` is a panic of the Rust code.
* `js_sys::Math::random()` is modelled as an ambient stream `rng : Nat → ℚ`
  consumed in call order (two draws per created vehicle).
-/

namespace DxMap

/-- Vehicle class, from `model.rs` (`enum VehicleType`). -/
inductive VehicleType where
  | Bus
  | Train
deriving DecidableEq

/-- Per-vehicle motion state, from `model.rs` (`struct Vehicle`).
`position` is the `f64` segment progress, `direction` the `i8` sign,
`last_station`/`next_station` the two `usize` waypoint indices. -/
structure Vehicle where
  id : Nat
  vehicle_type : VehicleType
  route_index : Nat
  position : ℚ
  speed : ℚ
  direction : Int
  last_station : Nat
  next_station : Nat
  lng : ℚ
  lat : ℚ
deriving DecidableEq

/-- A route, from `model.rs` (`struct Route`): an id, a display name, a
vehicle class and an ordered list of `(lng, lat)` waypoints. -/
structure Route where
  id : Nat
  name : String
  vehicle_type : VehicleType
  stations : List (ℚ × ℚ)
deriving DecidableEq

/-- The process-wide simulation state store, from `simulation.rs`
(`struct SimulationState`). -/
structure SimulationState where
  vehicles : List Vehicle
  routes : List Route
  is_paused : Bool
  animation_frame_id : Option Int
deriving DecidableEq

/-- Rust `n as i32` applied to a `usize` value: reinterpret the low 32 bits
as a two's-complement signed integer. -/
def toI32 (n : Nat) : Int :=
  if n % 2 ^ 32 < 2 ^ 31 then ((n % 2 ^ 32 : Nat) : Int)
  else ((n % 2 ^ 32 : Nat) : Int) - 2 ^ 32

/-- Rust `x as usize` applied to an `i32` value: sign-extend to 64 bits and
reinterpret as unsigned. -/
def i32ToUsize (x : Int) : Nat := (x % 2 ^ 64).toNat

/-- Rust release-mode (wrapping) `usize` subtraction `a - b`, for `a, b`
in `usize` range. -/
def usizeSub (a b : Nat) : Nat :=
  if b ≤ a then a - b else 2 ^ 64 - (b - a)

/-- One iteration of the `while vehicle.position >= 1.0` boundary
normalization loop of `update_vehicle_positions`
(`src/src/app/simulation/mod.rs:464-482`): subtract `1.0` from the
progress, promote `next_station` to `last_station`, compute the candidate
next index from the `i32`-cast arithmetic of the source, reversing the
direction when the candidate is out of bounds. `len` is
`route.stations.len()`. -/
def loopBody (len : Nat) (v : Vehicle) : Vehicle :=
  let v1 := { v with position := v.position - 1, last_station := v.next_station }
  let cand : Int := toI32 v1.last_station + v.direction
  if cand < 0 ∨ toI32 len ≤ cand then
    let dir : Int := v.direction * (-1)
    let cand2 : Int := toI32 v1.last_station + dir
    { v1 with direction := dir, next_station := i32ToUsize cand2 }
  else
    { v1 with next_station := i32ToUsize cand }

theorem loopBody_position (len : Nat) (v : Vehicle) :
    (loopBody len v).position = v.position - 1 := by
  dsimp only [loopBody]
  split <;> rfl

theorem one_le_iff_floor_toNat_pos (p : ℚ) : 1 ≤ p ↔ 0 < (⌊p⌋).toNat := by
  constructor
  · intro h
    have h1 : (1 : ℤ) ≤ ⌊p⌋ := Int.le_floor.mpr (by exact_mod_cast h)
    omega
  · intro h
    have h1 : (1 : ℤ) ≤ ⌊p⌋ := by omega
    have h2 := Int.le_floor.mp h1
    exact_mod_cast h2

theorem floor_toNat_sub_one (p : ℚ) (h : 1 ≤ p) :
    (⌊p - 1⌋).toNat = (⌊p⌋).toNat - 1 := by
  have h1 : ⌊p - 1⌋ = ⌊p⌋ - 1 := by
    rw [show (1 : ℚ) = ((1 : ℤ) : ℚ) from by norm_num, Int.floor_sub_int]
  have h2 : (1 : ℤ) ≤ ⌊p⌋ := by
    rw [Int.le_floor]; exact_mod_cast h
  omega

/-- The `while vehicle.position >= 1.0` loop of `update_vehicle_positions`:
repeat `loopBody` while the guard holds.  Terminates because each iteration
decreases the progress by exactly `1.0`. -/
def tickLoop (len : Nat) (v : Vehicle) : Vehicle :=
  if h : 1 ≤ v.position then tickLoop len (loopBody len v) else v
termination_by (⌊v.position⌋).toNat
decreasing_by
  rw [loopBody_position, floor_toNat_sub_one v.position h]
  have := (one_le_iff_floor_toNat_pos v.position).mp h
  omega

theorem tickLoop_of_ge (len : Nat) (v : Vehicle) (h : 1 ≤ v.position) :
    tickLoop len v = tickLoop len (loopBody len v) := by
  rw [tickLoop]
  simp [h]

theorem tickLoop_of_lt (len : Nat) (v : Vehicle) (h : v.position < 1) :
    tickLoop len v = v := by
  rw [tickLoop]
  simp [not_le.mpr h]

/-- Executable companion of `tickLoop`: the loop runs exactly
`(⌊v.position⌋).toNat` iterations. -/
def tickRun (len : Nat) (v : Vehicle) : Vehicle :=
  (loopBody len)^[(⌊v.position⌋).toNat] v

theorem tickLoop_eq_tickRun (len : Nat) (v : Vehicle) :
    tickLoop len v = tickRun len v := by
  generalize hn : (⌊v.position⌋).toNat = n
  induction n generalizing v with
  | zero =>
    have hlt : v.position < 1 := by
      by_contra hge
      have := (one_le_iff_floor_toNat_pos v.position).mp (not_lt.mp hge)
      omega
    rw [tickLoop_of_lt len v hlt]
    simp [tickRun, hn]
  | succ k ih =>
    have hge : 1 ≤ v.position := by
      rw [one_le_iff_floor_toNat_pos]
      omega
    have hk : (⌊(loopBody len v).position⌋).toNat = k := by
      rw [loopBody_position, floor_toNat_sub_one v.position hge, hn]
      omega
    rw [tickLoop_of_ge len v hge, ih (loopBody len v) hk]
    simp only [tickRun, hk, hn, Function.iterate_succ_apply]

/-- Master induction principle for the boundary-normalization loop: any
predicate preserved by the loop body (under the loop guard) holds of the
loop's result, and the result always falsifies the guard. -/
theorem tickLoop_spec (len : Nat) (P : Vehicle → Prop)
    (hstep : ∀ v, 1 ≤ v.position → P v → P (loopBody len v)) :
    ∀ v, P v → P (tickLoop len v) ∧ (tickLoop len v).position < 1 := by
  intro v hv
  generalize hn : (⌊v.position⌋).toNat = n
  induction n generalizing v with
  | zero =>
    have hlt : v.position < 1 := by
      by_contra hge
      have := (one_le_iff_floor_toNat_pos v.position).mp (not_lt.mp hge)
      omega
    rw [tickLoop_of_lt len v hlt]
    exact ⟨hv, hlt⟩
  | succ k ih =>
    have hge : 1 ≤ v.position := by
      rw [one_le_iff_floor_toNat_pos]
      omega
    have hk : (⌊(loopBody len v).position⌋).toNat = k := by
      rw [loopBody_position, floor_toNat_sub_one v.position hge, hn]
      omega
    rw [tickLoop_of_ge len v hge]
    exact ih (loopBody len v) (hstep v hge hv) hk

theorem toI32_eq_self {n : Nat} (h : n < 2 ^ 31) : toI32 n = (n : Int) := by
  have h32 : n % 2 ^ 32 = n := Nat.mod_eq_of_lt (by omega)
  have hc : n % 2 ^ 32 < 2 ^ 31 := by omega
  rw [toI32, if_pos hc, h32]

theorem i32ToUsize_eq_toNat {x : Int} (h0 : 0 ≤ x) (h1 : x < 2 ^ 64) :
    i32ToUsize x = x.toNat := by
  rw [i32ToUsize, Int.emod_eq_of_lt h0 h1]

/-- The loop body leaves every non-motion field of the vehicle unchanged. -/
theorem loopBody_preserves_fields (len : Nat) (v : Vehicle) :
    (loopBody len v).id = v.id ∧ (loopBody len v).vehicle_type = v.vehicle_type ∧
    (loopBody len v).route_index = v.route_index ∧ (loopBody len v).speed = v.speed ∧
    (loopBody len v).lng = v.lng ∧ (loopBody len v).lat = v.lat := by
  dsimp only [loopBody]
  split <;> exact ⟨rfl, rfl, rfl, rfl, rfl, rfl⟩

/-- The index invariant of the spec (§3, Vehicle): both waypoint indices are
valid for a route of `len` waypoints, the direction is `±1`, and the two
indices are adjacent under the direction. -/
def VehicleInv (len : Nat) (v : Vehicle) : Prop :=
  v.last_station < len ∧ v.next_station < len ∧
  (v.direction = 1 ∨ v.direction = -1) ∧
  (v.next_station : Int) = (v.last_station : Int) + v.direction

/-- The loop body preserves the index invariant for routes of at least two
waypoints (within `i32` range). -/
theorem loopBody_preserves_inv (len : Nat) (hlen2 : 2 ≤ len)
    (hlen31 : len < 2 ^ 31) (v : Vehicle) (hv : VehicleInv len v) :
    VehicleInv len (loopBody len v) := by
  obtain ⟨hlast, hnext, hdir, hadj⟩ := hv
  have hcast : toI32 v.next_station = (v.next_station : Int) :=
    toI32_eq_self (lt_trans hnext hlen31)
  have hlcast : toI32 len = (len : Int) := toI32_eq_self hlen31
  unfold loopBody VehicleInv
  dsimp only
  rw [hcast, hlcast]
  rcases hdir with hd | hd <;> rw [hd] <;> split
  · next hout =>
    dsimp only
    have hend : (v.next_station : Int) = (len : Int) - 1 := by omega
    rw [show ((v.next_station : Int) + 1 * (-1) : Int) = ((len : Int) - 2) from by omega,
      i32ToUsize_eq_toNat (by omega) (by omega)]
    refine ⟨hnext, by omega, Or.inr (by norm_num), by omega⟩
  · next hout =>
    dsimp only
    push_neg at hout
    obtain ⟨hge0, hltlen⟩ := hout
    rw [i32ToUsize_eq_toNat (by omega) (by omega)]
    refine ⟨hnext, by omega, Or.inl rfl, by omega⟩
  · next hout =>
    dsimp only
    have hend : (v.next_station : Int) = 0 := by omega
    rw [show ((v.next_station : Int) + (-1) * (-1) : Int) = (1 : Int) from by omega,
      i32ToUsize_eq_toNat (by omega) (by omega)]
    refine ⟨hnext, by omega, Or.inl (by norm_num), by omega⟩
  · next hout =>
    dsimp only
    push_neg at hout
    obtain ⟨hge0, hltlen⟩ := hout
    rw [i32ToUsize_eq_toNat (by omega) (by omega)]
    refine ⟨hnext, by omega, Or.inr rfl, by omega⟩

/-- The body of the `for vehicle in &mut sim_state.vehicles` loop of
`update_vehicle_positions` (`src/src/app/simulation/mod.rs:456-491`),
for a single vehicle: fetch the vehicle's route, add the speed to the
progress, run the boundary-normalization loop, then linearly interpolate
`lng`/`lat` between the two waypoints. `none` models a Rust panic
(route or waypoint index out of bounds). -/
def update_one_vehicle (routes : List Route) (v : Vehicle) : Option Vehicle :=
  match routes.get? v.route_index with
  | none => none
  | some route =>
    let v1 := { v with position := v.position + v.speed }
    let v2 := tickLoop route.stations.length v1
    match route.stations.get? v2.last_station, route.stations.get? v2.next_station with
    | some lastS, some nextS =>
      some { v2 with
        lng := lastS.1 + (nextS.1 - lastS.1) * v2.position,
        lat := lastS.2 + (nextS.2 - lastS.2) * v2.position }
    | _, _ => none

/-- Executable companion of `update_one_vehicle` (the loop replaced by its
iteration count). -/
def update_one_vehicle_run (routes : List Route) (v : Vehicle) : Option Vehicle :=
  match routes.get? v.route_index with
  | none => none
  | some route =>
    let v1 := { v with position := v.position + v.speed }
    let v2 := tickRun route.stations.length v1
    match route.stations.get? v2.last_station, route.stations.get? v2.next_station with
    | some lastS, some nextS =>
      some { v2 with
        lng := lastS.1 + (nextS.1 - lastS.1) * v2.position,
        lat := lastS.2 + (nextS.2 - lastS.2) * v2.position }
    | _, _ => none

theorem update_one_vehicle_eq_run (routes : List Route) (v : Vehicle) :
    update_one_vehicle routes v = update_one_vehicle_run routes v := by
  unfold update_one_vehicle update_one_vehicle_run
  simp only [tickLoop_eq_tickRun]

/-- The full tick over the state: `update_vehicle_positions`
(`src/src/app/simulation/mod.rs:437-492`) updates every vehicle in place;
a panic on any vehicle (modelled as `none`) aborts the tick. The `routes`
collection, the paused flag and the frame id are not touched. -/
def update_vehicle_positions (s : SimulationState) : Option SimulationState :=
  (s.vehicles.mapM (update_one_vehicle s.routes)).map
    (fun vs => { s with vehicles := vs })

/-- Executable companion of `update_vehicle_positions`. -/
def update_vehicle_positions_run (s : SimulationState) : Option SimulationState :=
  (s.vehicles.mapM (update_one_vehicle_run s.routes)).map
    (fun vs => { s with vehicles := vs })

theorem update_vehicle_positions_eq_run (s : SimulationState) :
    update_vehicle_positions s = update_vehicle_positions_run s := by
  unfold update_vehicle_positions update_vehicle_positions_run
  rw [funext (update_one_vehicle_eq_run s.routes)]

/-- The per-frame callback body of `start_animation_loop` /
`request_animation_frame` (`src/src/app/simulation/mod.rs:346-365` and
`390-409`): when not paused, run the tick (the push to the renderer does
not mutate the state); return the updated state together with the
`should_continue` flag — the value of `is_paused`, negated, read at the
end of the callback — which decides whether the next frame is requested. -/
def frame_callback (s : SimulationState) : Option (SimulationState × Bool) :=
  if s.is_paused then some (s, !s.is_paused)
  else
    match update_vehicle_positions s with
    | none => none
    | some s1 => some (s1, !s1.is_paused)

/-- Toggling, from `toggle_simulation` (`src/src/app/simulation.rs:697-713`):
flip `is_paused`; when the flip resumes the simulation, re-enter
`start_animation_loop`, which stores the frame id handed out by the host
scheduler (modelled by the parameter `host`; `none` models an unavailable
scheduler). -/
def toggle_simulation (host : Option Int) (s : SimulationState) : SimulationState :=
  let s1 := { s with is_paused := !s.is_paused }
  if !s1.is_paused then
    match host with
    | some i => { s1 with animation_frame_id := some i }
    | none => s1
  else s1

/-- Fleet size per route, from `initialize_vehicles`
(`src/src/app/simulation/model.rs:140-143`): 10 trains per line, 20 buses
per route. -/
def vehicleCountFor : VehicleType → Nat
  | VehicleType.Train => 10
  | VehicleType.Bus => 20

/-- Creation of the vehicle with global index `vid` as the `i`-th vehicle of
`route`, from the body of the inner loop of `initialize_vehicles`
(`src/src/app/simulation/model.rs:146-174`). Even `i` starts forward at
indices `(0, 1)`; odd `i` starts backward at `(len-1, len-2)`, the two
`usize` subtractions wrapping as in a Rust release build. `rng` models the
stream of `Math::random()` draws (two per vehicle, in call order); `none`
models the panic of `route.stations[last_station]` when the index is out of
bounds. -/
def mkVehicle (rng : Nat → ℚ) (vid : Nat) (route : Route) (i : Nat) : Option Vehicle :=
  let len := route.stations.length
  let last_station : Nat := if i % 2 = 0 then 0 else usizeSub len 1
  let next_station : Nat := if i % 2 = 0 then 1 else usizeSub len 2
  let direction : Int := if i % 2 = 0 then 1 else -1
  match route.stations.get? last_station with
  | none => none
  | some startS =>
    some {
      id := vid
      vehicle_type := route.vehicle_type
      route_index := route.id
      position := rng (2 * vid)
      speed := 1 / 200 + rng (2 * vid + 1) * (1 / 100)
      direction := direction
      last_station := last_station
      next_station := next_station
      lng := startS.1
      lat := startS.2 }

/-- The inner `for i in 0..vehicle_count` loop of `initialize_vehicles`:
create `n` vehicles on `route`, ids counting up from `startId`. -/
def mkRouteVehicles (rng : Nat → ℚ) (route : Route) (startId : Nat) (n : Nat) :
    Option (List Vehicle) :=
  (List.range n).mapM (fun i => mkVehicle rng (startId + i) route i)

/-- The outer loop of `initialize_vehicles`, threading the `id_counter`. -/
def buildVehiclesFrom (rng : Nat → ℚ) (startId : Nat) : List Route → Option (List Vehicle)
  | [] => some []
  | route :: rest =>
    let n := vehicleCountFor route.vehicle_type
    match mkRouteVehicles rng route startId n with
    | none => none
    | some vs =>
      match buildVehiclesFrom rng (startId + n) rest with
      | none => none
      | some ws => some (vs ++ ws)

/-- The fleet builder `initialize_vehicles`
(`src/src/app/simulation/model.rs:135-178`): per route, a class-dependent
number of vehicles with globally sequential ids starting at 0. -/
def build_vehicles (rng : Nat → ℚ) (routes : List Route) : Option (List Vehicle) :=
  buildVehiclesFrom rng 0 routes

/-- Modelled from the spec (§4.3, steps 2.a-2.e): one iteration of the
spec's boundary-normalization loop, with ideal (unbounded) integer index
arithmetic.  This is the spec-side definition of the refinement claim; the
code-side definition is `loopBody`. -/
def specLoopBody (len : Nat) (v : Vehicle) : Vehicle :=
  let v1 := { v with position := v.position - 1, last_station := v.next_station }
  let cand : Int := (v1.last_station : Int) + v.direction
  if cand < 0 ∨ (len : Int) ≤ cand then
    let dir : Int := -v.direction
    let cand2 : Int := (v1.last_station : Int) + dir
    { v1 with direction := dir, next_station := cand2.toNat }
  else
    { v1 with next_station := cand.toNat }

theorem specLoopBody_position (len : Nat) (v : Vehicle) :
    (specLoopBody len v).position = v.position - 1 := by
  dsimp only [specLoopBody]
  split <;> rfl

/-- Modelled from the spec (§4.3, step 2): the spec's
`while segment_progress >= 1.0` loop. -/
def specTickLoop (len : Nat) (v : Vehicle) : Vehicle :=
  if h : 1 ≤ v.position then specTickLoop len (specLoopBody len v) else v
termination_by (⌊v.position⌋).toNat
decreasing_by
  rw [specLoopBody_position, floor_toNat_sub_one v.position h]
  have := (one_le_iff_floor_toNat_pos v.position).mp h
  omega

theorem specTickLoop_of_ge (len : Nat) (v : Vehicle) (h : 1 ≤ v.position) :
    specTickLoop len v = specTickLoop len (specLoopBody len v) := by
  rw [specTickLoop]
  simp [h]

theorem specTickLoop_of_lt (len : Nat) (v : Vehicle) (h : v.position < 1) :
    specTickLoop len v = v := by
  rw [specTickLoop]
  simp [not_le.mpr h]

/-- Executable companion of `specTickLoop`. -/
def specTickRun (len : Nat) (v : Vehicle) : Vehicle :=
  (specLoopBody len)^[(⌊v.position⌋).toNat] v

theorem specTickLoop_eq_specTickRun (len : Nat) (v : Vehicle) :
    specTickLoop len v = specTickRun len v := by
  generalize hn : (⌊v.position⌋).toNat = n
  induction n generalizing v with
  | zero =>
    have hlt : v.position < 1 := by
      by_contra hge
      have := (one_le_iff_floor_toNat_pos v.position).mp (not_lt.mp hge)
      omega
    rw [specTickLoop_of_lt len v hlt]
    simp [specTickRun, hn]
  | succ k ih =>
    have hge : 1 ≤ v.position := by
      rw [one_le_iff_floor_toNat_pos]
      omega
    have hk : (⌊(specLoopBody len v).position⌋).toNat = k := by
      rw [specLoopBody_position, floor_toNat_sub_one v.position hge, hn]
      omega
    rw [specTickLoop_of_ge len v hge, ih (specLoopBody len v) hk]
    simp only [specTickRun, hk, hn, Function.iterate_succ_apply]

/-- Modelled from the spec (§4.3): the full per-vehicle tick — add the speed
to the progress, normalize across waypoint boundaries, then interpolate
`current_position` component-wise between the two waypoints. -/
def specTick (route : Route) (v : Vehicle) : Vehicle :=
  let v1 := { v with position := v.position + v.speed }
  let v2 := specTickLoop route.stations.length v1
  let lastS := (route.stations.get? v2.last_station).getD (0, 0)
  let nextS := (route.stations.get? v2.next_station).getD (0, 0)
  { v2 with
    lng := lastS.1 + (nextS.1 - lastS.1) * v2.position,
    lat := lastS.2 + (nextS.2 - lastS.2) * v2.position }

/-- Under the index invariant the code's loop body and the spec's loop body
coincide: the `i32`/`usize` casts of the source are exact. -/
theorem loopBody_eq_specLoopBody (len : Nat) (hlen2 : 2 ≤ len)
    (hlen31 : len < 2 ^ 31) (v : Vehicle) (hv : VehicleInv len v) :
    loopBody len v = specLoopBody len v := by
  obtain ⟨hlast, hnext, hdir, hadj⟩ := hv
  have hcast : toI32 v.next_station = (v.next_station : Int) :=
    toI32_eq_self (lt_trans hnext hlen31)
  have hlcast : toI32 len = (len : Int) := toI32_eq_self hlen31
  unfold loopBody specLoopBody
  dsimp only
  rw [hcast, hlcast]
  rcases hdir with hd | hd <;> rw [hd] <;> split
  · next hout =>
    have hend : (v.next_station : Int) = (len : Int) - 1 := by omega
    rw [i32ToUsize_eq_toNat (by omega) (by omega)]
    norm_num
  · next hout =>
    push_neg at hout
    rw [i32ToUsize_eq_toNat (by omega) (by omega)]
  · next hout =>
    have hend : (v.next_station : Int) = 0 := by omega
    rw [i32ToUsize_eq_toNat (by omega) (by omega)]
    norm_num
  · next hout =>
    push_neg at hout
    rw [i32ToUsize_eq_toNat (by omega) (by omega)]

/-- The boundary-normalization loop preserves the index invariant. -/
theorem tickLoop_preserves_inv (len : Nat) (hlen2 : 2 ≤ len)
    (hlen31 : len < 2 ^ 31) (v : Vehicle) (hv : VehicleInv len v) :
    VehicleInv len (tickLoop len v) :=
  (tickLoop_spec len (VehicleInv len)
    (fun w _ hw => loopBody_preserves_inv len hlen2 hlen31 w hw) v hv).1

/-- The loop's result always has progress `< 1`. -/
theorem tickLoop_position_lt_one (len : Nat) (v : Vehicle) :
    (tickLoop len v).position < 1 :=
  (tickLoop_spec len (fun _ => True) (fun _ _ _ => trivial) v trivial).2

/-- The loop keeps the progress nonnegative. -/
theorem tickLoop_position_nonneg (len : Nat) (v : Vehicle)
    (h : 0 ≤ v.position) : 0 ≤ (tickLoop len v).position :=
  (tickLoop_spec len (fun w => 0 ≤ w.position)
    (fun w hw1 _ => by
      show 0 ≤ (loopBody len w).position
      rw [loopBody_position]
      linarith) v h).1

/-- The loop leaves every non-motion field of the vehicle unchanged. -/
theorem tickLoop_preserves_fields (len : Nat) (v : Vehicle) :
    (tickLoop len v).id = v.id ∧ (tickLoop len v).vehicle_type = v.vehicle_type ∧
    (tickLoop len v).route_index = v.route_index ∧ (tickLoop len v).speed = v.speed :=
  (tickLoop_spec len
    (fun w => w.id = v.id ∧ w.vehicle_type = v.vehicle_type ∧
      w.route_index = v.route_index ∧ w.speed = v.speed)
    (fun w _ hw => by
      obtain ⟨e1, e2, e3, e4, _, _⟩ := loopBody_preserves_fields len w
      exact ⟨e1.trans hw.1, e2.trans hw.2.1, e3.trans hw.2.2.1, e4.trans hw.2.2.2⟩)
    v ⟨rfl, rfl, rfl, rfl⟩).1

/-- Under the index invariant, the code's loop and the spec's loop coincide. -/
theorem tickLoop_eq_specTickLoop (len : Nat) (hlen2 : 2 ≤ len)
    (hlen31 : len < 2 ^ 31) (v : Vehicle) (hv : VehicleInv len v) :
    tickLoop len v = specTickLoop len v := by
  generalize hn : (⌊v.position⌋).toNat = n
  induction n generalizing v with
  | zero =>
    have hlt : v.position < 1 := by
      by_contra hge
      have := (one_le_iff_floor_toNat_pos v.position).mp (not_lt.mp hge)
      omega
    rw [tickLoop_of_lt len v hlt, specTickLoop_of_lt len v hlt]
  | succ k ih =>
    have hge : 1 ≤ v.position := by
      rw [one_le_iff_floor_toNat_pos]
      omega
    have hk : (⌊(loopBody len v).position⌋).toNat = k := by
      rw [loopBody_position, floor_toNat_sub_one v.position hge, hn]
      omega
    have hbody := loopBody_eq_specLoopBody len hlen2 hlen31 v hv
    rw [tickLoop_of_ge len v hge, specTickLoop_of_ge len v hge, ← hbody,
      ih (loopBody len v) (loopBody_preserves_inv len hlen2 hlen31 v hv) hk]

/-- Destructuring of a completed per-vehicle tick: a successful
`update_one_vehicle` fetched a route, ran the loop on the speed-advanced
vehicle, and succeeded at both interpolation lookups. -/
theorem update_one_vehicle_some (routes : List Route) (v v' : Vehicle)
    (h : update_one_vehicle routes v = some v') :
    ∃ route w lastS nextS,
      routes.get? v.route_index = some route ∧
      w = tickLoop route.stations.length { v with position := v.position + v.speed } ∧
      route.stations.get? w.last_station = some lastS ∧
      route.stations.get? w.next_station = some nextS ∧
      v' = { w with lng := lastS.1 + (nextS.1 - lastS.1) * w.position,
                    lat := lastS.2 + (nextS.2 - lastS.2) * w.position } := by
  unfold update_one_vehicle at h
  cases hr : routes.get? v.route_index with
  | none => rw [hr] at h; exact absurd h (by simp)
  | some route =>
    rw [hr] at h
    dsimp only at h
    cases hg1 : route.stations.get?
        (tickLoop route.stations.length
          { v with position := v.position + v.speed }).last_station with
    | none => rw [hg1] at h; exact absurd h (by simp)
    | some lastS =>
      rw [hg1] at h
      cases hg2 : route.stations.get?
          (tickLoop route.stations.length
            { v with position := v.position + v.speed }).next_station with
      | none => rw [hg2] at h; exact absurd h (by simp)
      | some nextS =>
        rw [hg2] at h
        dsimp only at h
        exact ⟨route, _, lastS, nextS, rfl, rfl, hg1, hg2, (Option.some.inj h).symm⟩

/-- Under the index invariant a tick always completes and computes exactly
what the spec's §4.3 algorithm prescribes. -/
theorem update_eq_specTick (routes : List Route) (route : Route) (v : Vehicle)
    (hr : routes.get? v.route_index = some route)
    (hlen2 : 2 ≤ route.stations.length) (hlen31 : route.stations.length < 2 ^ 31)
    (hv : VehicleInv route.stations.length v) :
    update_one_vehicle routes v = some (specTick route v) := by
  have hv1 : VehicleInv route.stations.length
      { v with position := v.position + v.speed } := hv
  have hv2 := tickLoop_preserves_inv route.stations.length hlen2 hlen31 _ hv1
  unfold update_one_vehicle specTick
  rw [hr]
  dsimp only
  rw [tickLoop_eq_specTickLoop route.stations.length hlen2 hlen31 _ hv1] at hv2 ⊢
  obtain ⟨hl, hn, -, -⟩ := hv2
  rw [List.get?_eq_get hl, List.get?_eq_get hn]
  rfl

/-- Two-waypoint sample route for the interpolation example. -/
def c1Route : Route :=
  { id := 0, name := "segment", vehicle_type := VehicleType.Train,
    stations := [(0, 0), (10, 0)] }

/-- Vehicle whose progress reaches `1/4` on the tick under scrutiny. -/
def c1V : Vehicle :=
  { id := 0, vehicle_type := VehicleType.Train, route_index := 0,
    position := 1 / 5, speed := 1 / 20, direction := 1,
    last_station := 0, next_station := 1, lng := 0, lat := 0 }

/-- Expected result of the tick on `c1V`: progress `1/4`, position
`(2.5, 0)`. -/
def c1Expected : Vehicle :=
  { id := 0, vehicle_type := VehicleType.Train, route_index := 0,
    position := 1 / 4, speed := 1 / 20, direction := 1,
    last_station := 0, next_station := 1, lng := 5 / 2, lat := 0 }

/-- C1: for every vehicle on a route with at least two waypoints (indices
valid and adjacent), one tick computes exactly the algorithm of spec §4.3 —
add the speed, normalize with the while loop (reversing at out-of-bounds
candidates), then interpolate component-wise; `specTick` is the spec-side
definition, `update_one_vehicle` the code-side one. -/
theorem c1_tick_follows_spec_algorithm (routes : List Route) (route : Route)
    (v : Vehicle) (hr : routes.get? v.route_index = some route)
    (hlen2 : 2 ≤ route.stations.length) (hlen31 : route.stations.length < 2 ^ 31)
    (hv : VehicleInv route.stations.length v) :
    update_one_vehicle routes v = some (specTick route v) :=
  update_eq_specTick routes route v hr hlen2 hlen31 hv

/-- C1 witness: on the two-waypoint route `[(0,0), (10,0)]` with resulting
progress `1/4`, the tick puts the vehicle at `(5/2, 0)`. -/
theorem c1_witness :
    update_one_vehicle [c1Route] c1V = some c1Expected ∧
    c1Expected.lng = 5 / 2 ∧ c1Expected.lat = 0 := by
  refine ⟨?_, by norm_num [c1Expected], by norm_num [c1Expected]⟩
  have h := c1_tick_follows_spec_algorithm [c1Route] c1Route c1V rfl
    (by norm_num [c1Route]) (by norm_num [c1Route])
    ⟨by norm_num [c1V, c1Route], by norm_num [c1V, c1Route],
      Or.inl (by norm_num [c1V]), by norm_num [c1V]⟩
  rw [h]
  unfold specTick
  dsimp only
  have hp : ({ c1V with position := c1V.position + c1V.speed } : Vehicle).position < 1 := by
    norm_num [c1V]
  rw [specTickLoop_of_lt _ _ hp]
  norm_num [c1V, c1Route, c1Expected, List.get?, Vehicle.mk.injEq]

/-- C2: a tick that completes keeps the segment progress inside `[0, 1)`,
whatever the route and however many boundary crossings happen. -/
theorem c2_progress_invariant (routes : List Route) (v v' : Vehicle)
    (h0 : 0 ≤ v.position) (h1 : v.position < 1) (hs : 0 < v.speed)
    (h : update_one_vehicle routes v = some v') :
    0 ≤ v'.position ∧ v'.position < 1 := by
  obtain ⟨route, w, lastS, nextS, hr, hw, hg1, hg2, hv'⟩ :=
    update_one_vehicle_some routes v v' h
  have hpos : v'.position = w.position := by rw [hv']
  rw [hpos, hw]
  constructor
  · exact tickLoop_position_nonneg _ _ (by dsimp only; linarith)
  · exact tickLoop_position_lt_one _ _

/-- Three-waypoint train route used in the multi-crossing examples. -/
def exRoute3 : Route :=
  { id := 0, name := "short line", vehicle_type := VehicleType.Train,
    stations := [(0, 0), (1, 0), (2, 0)] }

/-- Vehicle with speed `5/2` on the 3-waypoint route: its tick crosses two
boundaries and reverses once. -/
def c2V : Vehicle :=
  { id := 0, vehicle_type := VehicleType.Train, route_index := 0,
    position := 1 / 2, speed := 5 / 2, direction := 1,
    last_station := 0, next_station := 1, lng := 0, lat := 0 }

/-- Result of the tick on `c2V`: two boundary crossings resolved, one
reversal, progress renormalized to `0`. -/
def c2Expected : Vehicle :=
  { id := 0, vehicle_type := VehicleType.Train, route_index := 0,
    position := 0, speed := 5 / 2, direction := -1,
    last_station := 1, next_station := 0, lng := 1, lat := 0 }

theorem c2_loopBody_step1 :
    loopBody 3 { c2V with position := c2V.position + c2V.speed } =
      { c2V with position := 2, last_station := 1, next_station := 2 } := by
  norm_num [loopBody, toI32, i32ToUsize, c2V, Vehicle.mk.injEq, Int.toNat_ofNat]
  all_goals rfl

theorem c2_loopBody_step2 :
    loopBody 3 { c2V with position := 2, last_station := 1, next_station := 2 } =
      { c2V with position := 1, last_station := 2, next_station := 1, direction := -1 } := by
  norm_num [loopBody, toI32, i32ToUsize, c2V, Vehicle.mk.injEq, Int.toNat_ofNat]

theorem c2_loopBody_step3 :
    loopBody 3 { c2V with position := 1, last_station := 2, next_station := 1, direction := -1 } =
      { c2V with position := 0, last_station := 1, next_station := 0, direction := -1 } := by
  norm_num [loopBody, toI32, i32ToUsize, c2V, Vehicle.mk.injEq, Int.toNat_ofNat]

theorem c2_tick_eval : update_one_vehicle [exRoute3] c2V = some c2Expected := by
  unfold update_one_vehicle
  show (match [exRoute3].get? c2V.route_index with
    | none => none
    | some route => _) = _
  rw [show [exRoute3].get? c2V.route_index = some exRoute3 from by
    norm_num [c2V, List.get?]]
  dsimp only
  rw [show exRoute3.stations.length = 3 from by norm_num [exRoute3],
    tickLoop_of_ge _ _ (by norm_num [c2V]), c2_loopBody_step1,
    tickLoop_of_ge _ _ (by norm_num [c2V]), c2_loopBody_step2,
    tickLoop_of_ge _ _ (by norm_num [c2V]), c2_loopBody_step3,
    tickLoop_of_lt _ _ (by norm_num [c2V])]
  norm_num [c2V, c2Expected, exRoute3, List.get?, Vehicle.mk.injEq]

/-- C2 witness: the `speed = 5/2` vehicle on the 3-waypoint route ends its
tick with progress `0 ∈ [0, 1)`. -/
theorem c2_witness : 0 ≤ c2Expected.position ∧ c2Expected.position < 1 :=
  c2_progress_invariant [exRoute3] c2V c2Expected (by norm_num [c2V])
    (by norm_num [c2V]) (by norm_num [c2V]) c2_tick_eval

/-- C3: a completed tick on a route with at least two waypoints preserves
the index invariant — valid indices, direction `±1`, and
`next = last + direction`. -/
theorem c3_index_invariant_preserved (routes : List Route) (route : Route)
    (v v' : Vehicle) (hr : routes.get? v.route_index = some route)
    (hlen2 : 2 ≤ route.stations.length) (hlen31 : route.stations.length < 2 ^ 31)
    (hv : VehicleInv route.stations.length v)
    (h : update_one_vehicle routes v = some v') :
    VehicleInv route.stations.length v' := by
  obtain ⟨route2, w, lastS, nextS, hr2, hw, hg1, hg2, hv'⟩ :=
    update_one_vehicle_some routes v v' h
  rw [hr] at hr2
  obtain rfl : route = route2 := Option.some.inj hr2
  have hwinv : VehicleInv route.stations.length w := by
    rw [hw]
    exact tickLoop_preserves_inv _ hlen2 hlen31 _ hv
  obtain ⟨i1, i2, i3, i4⟩ := hwinv
  rw [hv']
  exact ⟨i1, i2, i3, i4⟩

/-- C3 witness: the invariant holds again after the double-crossing tick of
the `speed = 5/2` vehicle. -/
theorem c3_witness : VehicleInv exRoute3.stations.length c2Expected :=
  c3_index_invariant_preserved [exRoute3] exRoute3 c2V c2Expected rfl
    (by norm_num [exRoute3]) (by norm_num [exRoute3])
    ⟨by norm_num [c2V, exRoute3], by norm_num [c2V, exRoute3],
      Or.inl (by norm_num [c2V]), by norm_num [c2V]⟩
    c2_tick_eval

/-- C10: the boundary-normalization loop terminates on every state — each
iteration decreases the progress by exactly `1.0`, the loop equals its
explicit `⌊position⌋`-fold iterate, and its result falsifies the guard. -/
theorem c10_loop_terminates (len : Nat) (v : Vehicle) :
    (loopBody len v).position = v.position - 1 ∧
    tickLoop len v = tickRun len v ∧
    (tickLoop len v).position < 1 :=
  ⟨loopBody_position len v, tickLoop_eq_tickRun len v,
    tickLoop_position_lt_one len v⟩

/-- Evaluation of the spec loop body at the upper route end: direction
flips to -1 and the next index becomes len - 2. -/
theorem specLoopBody_at_upper (len : Nat) (v : Vehicle) (hlen2 : 2 ≤ len)
    (hd : v.direction = 1) (hn : v.next_station = len - 1) :
    specLoopBody len v =
      { v with position := v.position - 1, last_station := len - 1,
               next_station := len - 2, direction := -1 } := by
  unfold specLoopBody
  dsimp only
  rw [hd, hn, if_pos (Or.inr (by omega))]
  norm_num [Vehicle.mk.injEq]
  all_goals omega

/-- Evaluation of the spec loop body at the lower route end: direction
flips to +1 and the next index becomes 1. -/
theorem specLoopBody_at_lower (len : Nat) (v : Vehicle) (hlen2 : 2 ≤ len)
    (hd : v.direction = -1) (hn : v.next_station = 0) :
    specLoopBody len v =
      { v with position := v.position - 1, last_station := 0,
               next_station := 1, direction := 1 } := by
  unfold specLoopBody
  dsimp only
  rw [hd, hn, if_pos (Or.inl (by norm_num))]
  norm_num [Vehicle.mk.injEq]

/-- C6: a tick that crosses a route end reflects on that same tick — at the
upper end (next = len - 1, direction +1) it flips the direction to -1
and selects next = len - 2; at the lower end (next = 0, direction -1)
it flips to +1 and selects next = 1. The progress window [1, 2)
makes the tick cross exactly one boundary. -/
theorem c6_boundary_reflection (routes : List Route) (route : Route)
    (v : Vehicle) (hr : routes.get? v.route_index = some route)
    (hlen2 : 2 ≤ route.stations.length) (hlen31 : route.stations.length < 2 ^ 31)
    (hv : VehicleInv route.stations.length v)
    (hcross : 1 ≤ v.position + v.speed) (hone : v.position + v.speed < 2) :
    (v.direction = 1 → v.next_station = route.stations.length - 1 →
      ∃ v', update_one_vehicle routes v = some v' ∧ v'.direction = -1 ∧
        v'.last_station = route.stations.length - 1 ∧
        v'.next_station = route.stations.length - 2) ∧
    (v.direction = -1 → v.next_station = 0 →
      ∃ v', update_one_vehicle routes v = some v' ∧ v'.direction = 1 ∧
        v'.last_station = 0 ∧ v'.next_station = 1) := by
  have hs := update_eq_specTick routes route v hr hlen2 hlen31 hv
  have hloop : specTickLoop route.stations.length
      { v with position := v.position + v.speed } =
      specLoopBody route.stations.length
        { v with position := v.position + v.speed } := by
    rw [specTickLoop_of_ge _ _ (by dsimp only; linarith),
      specTickLoop_of_lt _ _ (by rw [specLoopBody_position]; dsimp only; linarith)]
  constructor
  · intro hd hn
    have hbody := specLoopBody_at_upper route.stations.length
      { v with position := v.position + v.speed } hlen2 hd hn
    refine ⟨specTick route v, hs, ?_, ?_, ?_⟩ <;>
      · unfold specTick
        dsimp only
        rw [hloop, hbody]
  · intro hd hn
    have hbody := specLoopBody_at_lower route.stations.length
      { v with position := v.position + v.speed } hlen2 hd hn
    refine ⟨specTick route v, hs, ?_, ?_, ?_⟩ <;>
      · unfold specTick
        dsimp only
        rw [hloop, hbody]

/-- Vehicle one segment short of the upper end of the 3-waypoint route,
fast enough to cross it on the next tick. -/
def c6V : Vehicle :=
  { id := 0, vehicle_type := VehicleType.Train, route_index := 0,
    position := 1 / 2, speed := 3 / 5, direction := 1,
    last_station := 1, next_station := 2, lng := 0, lat := 0 }

/-- C6 witness: crossing the upper end of the 3-waypoint route flips the
direction and selects the penultimate waypoint. -/
theorem c6_witness :
    ∃ v', update_one_vehicle [exRoute3] c6V = some v' ∧ v'.direction = -1 ∧
      v'.last_station = 2 ∧ v'.next_station = 1 := by
  have h := (c6_boundary_reflection [exRoute3] exRoute3 c6V rfl
    (by norm_num [exRoute3]) (by norm_num [exRoute3])
    ⟨by norm_num [c6V, exRoute3], by norm_num [c6V, exRoute3],
      Or.inl (by norm_num [c6V]), by norm_num [c6V]⟩
    (by norm_num [c6V]) (by norm_num [c6V])).1
    (by norm_num [c6V]) (by norm_num [c6V, exRoute3])
  simp only [show exRoute3.stations.length = 3 from rfl] at h
  exact h

/-- C7: toggling twice restores the paused flag and touches neither the
vehicles nor the routes; while paused the frame callback performs no tick
and requests no further frame. -/
theorem c7_toggle_twice_identity (s : SimulationState) (h1 h2 : Option Int) :
    (toggle_simulation h2 (toggle_simulation h1 s)).is_paused = s.is_paused ∧
    (toggle_simulation h2 (toggle_simulation h1 s)).vehicles = s.vehicles ∧
    (toggle_simulation h2 (toggle_simulation h1 s)).routes = s.routes ∧
    (s.is_paused = true → frame_callback s = some (s, false)) := by
  refine ⟨?_, ?_, ?_, fun hp => by simp [frame_callback, hp]⟩ <;>
    · unfold toggle_simulation
      cases hp : s.is_paused <;> cases h1 <;> cases h2 <;> simp

/-- Running state used for the paused/resumed scenarios. -/
def c7S : SimulationState :=
  { vehicles := [c1V], routes := [c1Route], is_paused := true,
    animation_frame_id := none }

/-- C7 witness: double toggle on a concrete paused state, and the paused
frame callback leaves it untouched. -/
theorem c7_witness :
    (toggle_simulation (some 2) (toggle_simulation (some 1) c7S)).is_paused =
      c7S.is_paused ∧
    (toggle_simulation (some 2) (toggle_simulation (some 1) c7S)).vehicles =
      c7S.vehicles ∧
    frame_callback c7S = some (c7S, false) := by
  have h := c7_toggle_twice_identity c7S (some 1) (some 2)
  exact ⟨h.1, h.2.1, h.2.2.2 rfl⟩

/-- C8: the frame callback requests a next frame exactly when `is_paused`,
read at the end of the callback, is false; a paused callback neither updates
vehicles nor requests a frame. -/
theorem c8_frame_request_iff_running (s : SimulationState)
    (out : SimulationState × Bool) (h : frame_callback s = some out) :
    (out.2 = !out.1.is_paused) ∧
    (s.is_paused = true → out.1 = s ∧ out.2 = false) := by
  unfold frame_callback at h
  cases hp : s.is_paused
  · rw [hp] at h
    simp only [Bool.false_eq_true, if_false] at h
    cases hu : update_vehicle_positions s with
    | none => rw [hu] at h; exact absurd h (by simp)
    | some s1 =>
      rw [hu] at h
      obtain rfl : (s1, !s1.is_paused) = out := Option.some.inj h
      exact ⟨rfl, fun hpt => absurd hpt (by simp [hp])⟩
  · rw [hp] at h
    simp only [if_true] at h
    obtain rfl : ((s, !true) : SimulationState × Bool) = out := Option.some.inj h
    refine ⟨by simp [hp], fun _ => ⟨rfl, by simp⟩⟩

/-- Direct evaluation of the tick on the two-waypoint example vehicle. -/
theorem c1V_tick_eval : update_one_vehicle [c1Route] c1V = some c1Expected := by
  unfold update_one_vehicle
  show (match [c1Route].get? c1V.route_index with
    | none => none
    | some route => _) = _
  rw [show [c1Route].get? c1V.route_index = some c1Route from by
    norm_num [c1V, List.get?]]
  dsimp only
  rw [show c1Route.stations.length = 2 from by norm_num [c1Route],
    tickLoop_of_lt _ _ (by norm_num [c1V])]
  norm_num [c1V, c1Route, c1Expected, List.get?, Vehicle.mk.injEq]

/-- Running (unpaused) one-vehicle state. -/
def c8S : SimulationState :=
  { vehicles := [c1V], routes := [c1Route], is_paused := false,
    animation_frame_id := none }

/-- Evaluation of a full tick on the running one-vehicle state. -/
theorem c8S_tick_eval :
    update_vehicle_positions c8S = some { c8S with vehicles := [c1Expected] } := by
  unfold update_vehicle_positions
  rw [show c8S.vehicles = [c1V] from rfl, show c8S.routes = [c1Route] from rfl]
  simp [List.mapM, List.mapM.loop, c1V_tick_eval]
  rfl

/-- Result of one frame callback on the running one-vehicle state. -/
def c8Out : SimulationState × Bool := ({ c8S with vehicles := [c1Expected] }, true)

/-- Evaluation of the frame callback on the running one-vehicle state. -/
theorem c8S_frame_eval : frame_callback c8S = some c8Out := by
  unfold frame_callback
  rw [show c8S.is_paused = false from rfl]
  simp only [Bool.false_eq_true, if_false, c8S_tick_eval]
  rfl

/-- C8 witness: the unpaused one-vehicle callback requests the next frame
and its continue flag equals the negated end-of-callback paused flag. -/
theorem c8_witness :
    (c8Out.2 = !c8Out.1.is_paused) ∧
    (c8S.is_paused = true → c8Out.1 = c8S ∧ c8Out.2 = false) :=
  c8_frame_request_iff_running c8S c8Out c8S_frame_eval

/-- A completed per-vehicle tick preserves the vehicle identity fields:
id, class, route reference and speed. -/
theorem update_one_vehicle_preserves_fields (routes : List Route)
    (v v2 : Vehicle) (h : update_one_vehicle routes v = some v2) :
    v2.id = v.id ∧ v2.vehicle_type = v.vehicle_type ∧
    v2.route_index = v.route_index ∧ v2.speed = v.speed := by
  obtain ⟨route, w, lastS, nextS, hr, hw, hg1, hg2, hv2⟩ :=
    update_one_vehicle_some routes v v2 h
  have hf := tickLoop_preserves_fields route.stations.length
    { v with position := v.position + v.speed }
  rw [← hw] at hf
  rw [hv2]
  exact ⟨hf.1, hf.2.1, hf.2.2.1, hf.2.2.2⟩

/-- A successful `mapM` in the `Option` monad succeeds pointwise. -/
theorem mapM_option_forall2 {α β : Type} (f : α → Option β) :
    ∀ (l : List α) (l2 : List β), l.mapM f = some l2 →
      List.Forall₂ (fun a b => f a = some b) l l2 := by
  intro l
  induction l with
  | nil =>
    intro l2 h
    rw [List.mapM_nil] at h
    obtain rfl : ([] : List β) = l2 := Option.some.inj h
    exact List.Forall₂.nil
  | cons a as ih =>
    intro l2 h
    rw [List.mapM_cons] at h
    cases hfa : f a with
    | none => rw [hfa] at h; exact absurd h (by simp)
    | some b =>
      rw [hfa] at h
      cases has : as.mapM f with
      | none => rw [has] at h; exact absurd h (by simp)
      | some bs =>
        rw [has] at h
        obtain rfl : b :: bs = l2 := Option.some.inj (by simpa using h)
        exact List.Forall₂.cons hfa (ih bs has)

/-- C9: a tick mutates only the motion state — the routes, the paused flag
and the frame id are unchanged, and every vehicle keeps its id, class,
route reference and speed (pointwise, in order). -/
theorem c9_tick_mutates_only_motion_state (s s2 : SimulationState)
    (h : update_vehicle_positions s = some s2) :
    s2.routes = s.routes ∧ s2.is_paused = s.is_paused ∧
    s2.animation_frame_id = s.animation_frame_id ∧
    s2.vehicles.map Vehicle.id = s.vehicles.map Vehicle.id ∧
    s2.vehicles.map Vehicle.vehicle_type = s.vehicles.map Vehicle.vehicle_type ∧
    s2.vehicles.map Vehicle.route_index = s.vehicles.map Vehicle.route_index ∧
    s2.vehicles.map Vehicle.speed = s.vehicles.map Vehicle.speed := by
  unfold update_vehicle_positions at h
  cases hm : s.vehicles.mapM (update_one_vehicle s.routes) with
  | none => rw [hm] at h; exact absurd h (by simp)
  | some vs =>
    rw [hm] at h
    simp only [Option.map_some'] at h
    obtain rfl : { s with vehicles := vs } = s2 := Option.some.inj h
    have hf2 := mapM_option_forall2 (update_one_vehicle s.routes) s.vehicles vs hm
    have key : ∀ (l l2 : List Vehicle),
        List.Forall₂ (fun a b => update_one_vehicle s.routes a = some b) l l2 →
        l2.map Vehicle.id = l.map Vehicle.id ∧
        l2.map Vehicle.vehicle_type = l.map Vehicle.vehicle_type ∧
        l2.map Vehicle.route_index = l.map Vehicle.route_index ∧
        l2.map Vehicle.speed = l.map Vehicle.speed := by
      intro l l2 hf
      induction hf with
      | nil => exact ⟨rfl, rfl, rfl, rfl⟩
      | cons hab htail ihtail =>
        obtain ⟨e1, e2, e3, e4⟩ := update_one_vehicle_preserves_fields _ _ _ hab
        obtain ⟨m1, m2, m3, m4⟩ := ihtail
        simp [List.map_cons, e1, e2, e3, e4, m1, m2, m3, m4]
    obtain ⟨m1, m2, m3, m4⟩ := key s.vehicles vs hf2
    exact ⟨rfl, rfl, rfl, m1, m2, m3, m4⟩

/-- C9 witness: the tick on the running one-vehicle state keeps routes,
flags and the vehicle identity fields. -/
theorem c9_witness :
    ({ c8S with vehicles := [c1Expected] } : SimulationState).routes = c8S.routes ∧
    ({ c8S with vehicles := [c1Expected] } : SimulationState).is_paused = c8S.is_paused ∧
    ({ c8S with vehicles := [c1Expected] } : SimulationState).animation_frame_id =
      c8S.animation_frame_id ∧
    ([c1Expected].map Vehicle.id = c8S.vehicles.map Vehicle.id) ∧
    ([c1Expected].map Vehicle.vehicle_type = c8S.vehicles.map Vehicle.vehicle_type) ∧
    ([c1Expected].map Vehicle.route_index = c8S.vehicles.map Vehicle.route_index) ∧
    ([c1Expected].map Vehicle.speed = c8S.vehicles.map Vehicle.speed) :=
  c9_tick_mutates_only_motion_state c8S { c8S with vehicles := [c1Expected] }
    c8S_tick_eval

/-- On a route with at least two waypoints, vehicle creation always
succeeds. -/
theorem mkVehicle_isSome (rng : Nat → ℚ) (vid : Nat) (r : Route) (i : Nat)
    (h2 : 2 ≤ r.stations.length) : ∃ v, mkVehicle rng vid r i = some v := by
  unfold mkVehicle
  dsimp only
  by_cases hp : i % 2 = 0
  · simp only [if_pos hp]
    rw [List.get?_eq_get (show 0 < r.stations.length by omega)]
    exact ⟨_, rfl⟩
  · simp only [if_neg hp]
    have hs1 : usizeSub r.stations.length 1 = r.stations.length - 1 := by
      unfold usizeSub
      rw [if_pos (by omega)]
    rw [hs1, List.get?_eq_get (show r.stations.length - 1 < r.stations.length by omega)]
    exact ⟨_, rfl⟩

/-- Field characterization of a created vehicle. -/
theorem mkVehicle_props (rng : Nat → ℚ) (vid : Nat) (r : Route) (i : Nat)
    (v : Vehicle) (h2 : 2 ≤ r.stations.length)
    (h : mkVehicle rng vid r i = some v) :
    v.id = vid ∧ v.vehicle_type = r.vehicle_type ∧ v.route_index = r.id ∧
    v.speed = 1 / 200 + rng (2 * vid + 1) * (1 / 100) ∧
    (i % 2 = 0 → v.last_station = 0 ∧ v.next_station = 1 ∧ v.direction = 1) ∧
    (i % 2 = 1 → v.last_station = r.stations.length - 1 ∧
      v.next_station = r.stations.length - 2 ∧ v.direction = -1) ∧
    r.stations.get? v.last_station = some (v.lng, v.lat) := by
  unfold mkVehicle at h
  dsimp only at h
  by_cases hp : i % 2 = 0
  · simp only [if_pos hp] at h
    cases hg : r.stations.get? 0 with
    | none => rw [hg] at h; exact absurd h (by simp)
    | some p =>
      rw [hg] at h
      obtain rfl : _ = v := Option.some.inj h
      refine ⟨rfl, rfl, rfl, rfl, fun _ => ⟨rfl, rfl, rfl⟩, fun hodd => by omega, ?_⟩
      rw [hg]
  · have hs1 : usizeSub r.stations.length 1 = r.stations.length - 1 := by
      unfold usizeSub
      rw [if_pos (by omega)]
    have hs2 : usizeSub r.stations.length 2 = r.stations.length - 2 := by
      unfold usizeSub
      rw [if_pos (by omega)]
    simp only [if_neg hp, hs1, hs2] at h
    cases hg : r.stations.get? (r.stations.length - 1) with
    | none => rw [hg] at h; exact absurd h (by simp)
    | some p =>
      rw [hg] at h
      obtain rfl : _ = v := Option.some.inj h
      refine ⟨rfl, rfl, rfl, rfl, fun heven => by omega,
        fun _ => ⟨rfl, rfl, rfl⟩, ?_⟩
      rw [hg]

/-- Pointwise evaluation of the inner vehicle-creation loop over any list of
per-route indices. -/
theorem mkVehicle_mapM_eval (rng : Nat → ℚ) (r : Route) (startId : Nat)
    (h2 : 2 ≤ r.stations.length) :
    ∀ (idxs : List Nat), ∃ vs,
      idxs.mapM (fun i => mkVehicle rng (startId + i) r i) = some vs ∧
      vs.map Vehicle.id = idxs.map (fun i => startId + i) ∧
      ∀ v ∈ vs, ∃ i, i ∈ idxs ∧ mkVehicle rng (startId + i) r i = some v := by
  intro idxs
  induction idxs with
  | nil => exact ⟨[], by rw [List.mapM_nil]; rfl, rfl, by simp⟩
  | cons i is ih =>
    obtain ⟨v, hv⟩ := mkVehicle_isSome rng (startId + i) r i h2
    obtain ⟨vs, hvs, hmap, hmem⟩ := ih
    refine ⟨v :: vs, ?_, ?_, ?_⟩
    · rw [List.mapM_cons, hv, hvs]
      rfl
    · obtain ⟨hid, -⟩ := mkVehicle_props rng (startId + i) r i v h2 hv
      simp [List.map_cons, hid, hmap]
    · intro w hw
      rcases List.mem_cons.mp hw with rfl | hwtail
      · exact ⟨i, List.mem_cons_self i is, hv⟩
      · obtain ⟨j, hj1, hj2⟩ := hmem w hwtail
        exact ⟨j, List.mem_cons_of_mem i hj1, hj2⟩

/-- Evaluation of the outer fleet-building loop: on routes of at least two
waypoints it succeeds, produces the class-dependent number of vehicles per
route, ids counting up from `startId`, each vehicle created by `mkVehicle`
at its own id. -/
theorem buildVehiclesFrom_eval (rng : Nat → ℚ) :
    ∀ (routes : List Route) (startId : Nat),
      (∀ r ∈ routes, 2 ≤ r.stations.length) →
      ∃ vs, buildVehiclesFrom rng startId routes = some vs ∧
        vs.length = (routes.map (fun r => vehicleCountFor r.vehicle_type)).sum ∧
        vs.map Vehicle.id = List.range' startId vs.length ∧
        ∀ v ∈ vs, ∃ r, r ∈ routes ∧ ∃ i, i < vehicleCountFor r.vehicle_type ∧
          mkVehicle rng v.id r i = some v := by
  intro routes
  induction routes with
  | nil =>
    intro startId h
    exact ⟨[], rfl, rfl, rfl, by simp⟩
  | cons r rs ih =>
    intro startId h
    have h2 : 2 ≤ r.stations.length := h r (List.mem_cons_self r rs)
    obtain ⟨vs1, hvs1, hmap1, hmem1⟩ := mkVehicle_mapM_eval rng r startId h2
      (List.range (vehicleCountFor r.vehicle_type))
    obtain ⟨vs2, hvs2, hlen2, hmap2, hmem2⟩ :=
      ih (startId + vehicleCountFor r.vehicle_type)
        (fun r2 hr2 => h r2 (List.mem_cons_of_mem r hr2))
    have hlen1 : vs1.length = vehicleCountFor r.vehicle_type := by
      have hc := congrArg List.length hmap1
      simp at hc
      exact hc
    refine ⟨vs1 ++ vs2, ?_, ?_, ?_, ?_⟩
    · unfold buildVehiclesFrom
      dsimp only
      rw [show mkRouteVehicles rng r startId (vehicleCountFor r.vehicle_type) =
          some vs1 from hvs1]
      dsimp only
      rw [hvs2]
    · simp [hlen1, hlen2]
    · rw [List.map_append, hmap1, hmap2, ← List.range'_eq_map_range,
        List.length_append, hlen1, hlen2]
      have ha := List.range'_append startId (vehicleCountFor r.vehicle_type)
        (rs.map (fun r2 => vehicleCountFor r2.vehicle_type)).sum 1
      simpa [Nat.add_comm] using ha
    · intro v hv
      rcases List.mem_append.mp hv with h1 | h1
      · obtain ⟨i, hi, hmk⟩ := hmem1 v h1
        have hid := (mkVehicle_props rng (startId + i) r i v h2 hmk).1
        refine ⟨r, List.mem_cons_self r rs, i, List.mem_range.mp hi, ?_⟩
        rw [hid]
        exact hmk
      · obtain ⟨r2, hr2, i, hi, hmk⟩ := hmem2 v h1
        exact ⟨r2, List.mem_cons_of_mem r hr2, i, hi, hmk⟩

/-- C5: on routes that all have at least two waypoints, the fleet builder
succeeds, creates 10 vehicles per train route and 20 per bus route with
globally sequential ids from 0, starts even-indexed vehicles forward at
`(0, 1)` and odd-indexed ones backward at `(len-1, len-2)`, and initializes
each vehicle's position to its last waypoint's coordinates. -/
theorem c5_fleet_construction (rng : Nat → ℚ) (routes : List Route)
    (h2 : ∀ r ∈ routes, 2 ≤ r.stations.length) :
    ∃ vs, build_vehicles rng routes = some vs ∧
      vs.length = (routes.map (fun r => vehicleCountFor r.vehicle_type)).sum ∧
      vs.map Vehicle.id = List.range vs.length ∧
      ∀ v ∈ vs, ∃ r, r ∈ routes ∧ ∃ i, i < vehicleCountFor r.vehicle_type ∧
        v.vehicle_type = r.vehicle_type ∧ v.route_index = r.id ∧
        (i % 2 = 0 → v.last_station = 0 ∧ v.next_station = 1 ∧ v.direction = 1) ∧
        (i % 2 = 1 → v.last_station = r.stations.length - 1 ∧
          v.next_station = r.stations.length - 2 ∧ v.direction = -1) ∧
        r.stations.get? v.last_station = some (v.lng, v.lat) := by
  obtain ⟨vs, hvs, hlen, hmap, hmem⟩ := buildVehiclesFrom_eval rng routes 0 h2
  refine ⟨vs, hvs, hlen, ?_, ?_⟩
  · rw [hmap, List.range_eq_range']
  · intro v hv
    obtain ⟨r, hr, i, hi, hmk⟩ := hmem v hv
    obtain ⟨-, hvt, hri, -, heven, hodd, hget⟩ :=
      mkVehicle_props rng v.id r i v (h2 r hr) hmk
    exact ⟨r, hr, i, hi, hvt, hri, heven, hodd, hget⟩

/-- Fixed random stream used by the concrete builder examples. -/
def exRng : Nat → ℚ := fun _ => 1 / 2

/-- C5 witness: one 3-waypoint train route yields exactly 10 vehicles, 5
starting forward from index 0 and 5 starting backward from index 2. -/
theorem c5_witness :
    (∃ vs, build_vehicles exRng [exRoute3] = some vs ∧
      vs.length = ([exRoute3].map (fun r => vehicleCountFor r.vehicle_type)).sum ∧
      vs.map Vehicle.id = List.range vs.length ∧
      ∀ v ∈ vs, ∃ r, r ∈ [exRoute3] ∧ ∃ i, i < vehicleCountFor r.vehicle_type ∧
        v.vehicle_type = r.vehicle_type ∧ v.route_index = r.id ∧
        (i % 2 = 0 → v.last_station = 0 ∧ v.next_station = 1 ∧ v.direction = 1) ∧
        (i % 2 = 1 → v.last_station = r.stations.length - 1 ∧
          v.next_station = r.stations.length - 2 ∧ v.direction = -1) ∧
        r.stations.get? v.last_station = some (v.lng, v.lat)) ∧
    (build_vehicles exRng [exRoute3]).map List.length = some 10 ∧
    (build_vehicles exRng [exRoute3]).map
      (fun vs => vs.countP (fun v => v.direction == 1 && v.last_station == 0)) =
      some 5 ∧
    (build_vehicles exRng [exRoute3]).map
      (fun vs => vs.countP (fun v => v.direction == -1 && v.last_station == 2)) =
      some 5 := by
  refine ⟨c5_fleet_construction exRng [exRoute3] ?_, ?_, ?_, ?_⟩
  · intro r hr
    rw [List.mem_singleton] at hr
    subst hr
    norm_num [exRoute3]
  all_goals rfl

/-- Degenerate route with no waypoints. -/
def c4Route0 : Route :=
  { id := 0, name := "empty", vehicle_type := VehicleType.Train, stations := [] }

/-- Degenerate route with a single waypoint. -/
def c4Route1 : Route :=
  { id := 0, name := "point", vehicle_type := VehicleType.Train,
    stations := [(0, 0)] }

/-- C4: the vehicle builder does not skip degenerate routes. On a
zero-waypoint route it panics (indexing `stations[0]`), so the builder fails
as a whole; on a one-waypoint route (release semantics: the `usize`
subtraction `len - 2` wraps) it creates the full complement of 10 vehicles
instead of zero. -/
theorem c4_degenerate_routes_not_skipped :
    build_vehicles exRng [c4Route0] = none ∧
    (build_vehicles exRng [c4Route1]).map List.length = some 10 := by
  constructor <;> rfl

end DxMap
